import Mathlib

/-!
Verification development for the `infinite-scroller` web component
(`src/infinite-scroller.ts`, `src/range-generator.ts`).

The component state (the three index sets, the item count, the
scroll-optimization flag, the cell provider, and the per-index cell
container contents) is embedded as a Lean structure, and each method of
`InfiniteScroller` that the claims touch is embedded as a pure function
on that state.  JavaScript numbers are modelled exactly: indices and item
counts as `Int`, and the arguments of `generateRange` as `Rat`
(exact-real semantics of the JS arithmetic; floating-point rounding is
out of scope).  DOM cell containers exist exactly for the indices
`0 ≤ i < itemCount` (the lit `render()` template creates one `article`
per index), and `shadowRoot.querySelector` for an index outside that
domain returns `null`.  Heights and CSS are presentational and are not
modelled; container *contents* are.
-/

namespace InfiniteScroller

/-- Content of a single cell container: nothing, the placeholder
template, or real content supplied by the cell provider (modelled as a
natural-number tag, since templates are opaque to the windowing
algorithm). -/
inductive CellContent where
  | empty : CellContent
  | placeholder : CellContent
  | content : ℕ → CellContent
deriving DecidableEq, Repr

/-- JavaScript `ToLength` applied to the `length` property handed to
`Array.from`: truncate toward zero and clamp negatives to `0`.  For a
non-negative rational this is the floor. -/
def jsToLength (q : ℚ) : ℕ :=
  if q ≤ 0 then 0 else (⌊q⌋).toNat

/-- Embedding of `generateRange` from `src/range-generator.ts`:
`Array.from({ length: (stop - start) / step + 1 }, (_, i) => start + i * step)`. -/
def generateRange (start stop step : ℚ) : List ℚ :=
  (List.range (jsToLength ((stop - start) / step + 1))).map
    (fun (i : ℕ) => start + (i : ℚ) * step)

/-- Integer specialization of `generateRange start stop 1`, used by the
scroller (which only ever calls `generateRange` with integer endpoints
and step `1`).  `generateRange_intCast_one` below proves it agrees with
the rational embedding. -/
def generateRangeInt (start stop : ℤ) : List ℤ :=
  (List.range (stop - start + 1).toNat).map (fun (i : ℕ) => start + (i : ℤ))

/-- Sorted enumeration of a finite index set, used to model iteration
over a JS `Set` (whose insertion order the algorithm never relies on).
Implemented by insertion sort so that it evaluates by kernel
reduction. -/
def sortedIndices (s : Finset ℤ) : List ℤ :=
  Quot.liftOn s.val (fun l => l.insertionSort (· ≤ ·))
    (fun l1 l2 h =>
      List.eq_of_perm_of_sorted
        ((l1.perm_insertionSort (· ≤ ·)).trans
          (h.trans (l2.perm_insertionSort (· ≤ ·)).symm))
        (List.sorted_insertionSort (· ≤ ·) l1)
        (List.sorted_insertionSort (· ≤ ·) l2))

/-- The full component state relevant to the windowing algorithm. -/
structure State where
  itemCount : ℤ
  scrollOptimizationsDisabled : Bool
  cellProvider : ℤ → Option ℕ
  renderedCellIndices : Finset ℤ
  visibleCellIndices : Finset ℤ
  placeholderCellIndices : Finset ℤ
  containers : ℤ → CellContent

/-- A cell container exists in the DOM exactly for indices in
`[0, itemCount - 1]` (`cellContainerForIndex` returns `null` otherwise). -/
def containerExists (s : State) (index : ℤ) : Prop :=
  0 ≤ index ∧ index < s.itemCount

instance (s : State) (index : ℤ) : Decidable (containerExists s index) :=
  inferInstanceAs (Decidable (_ ∧ _))

/-- Observable churn of a reconciliation pass: each call of lit `render`
into a cell container (real content or placeholder) and each eviction
(`render(nothing, ...)`). -/
inductive ChurnEvent where
  | renderedContent : ℤ → ChurnEvent
  | renderedPlaceholder : ℤ → ChurnEvent
  | evicted : ℤ → ChurnEvent
deriving DecidableEq, Repr

/-- Events dispatched on the element that the claims mention. -/
inductive ScrollerEvent where
  | scrollThresholdReached : ScrollerEvent
  | visibleCellsChanged : List ℤ → ScrollerEvent
deriving DecidableEq, Repr

/-- Embedding of the `bufferRange` getter as a function of the two state
fields it reads (`visibleCellIndices` and `itemCount`).  Note that in
the no-visible-cells branch the upper end is `cellBufferSize` itself,
not clamped by `itemCount`. -/
def bufferRangeModel (visible : Finset ℤ) (itemCount : ℤ) : List ℤ :=
  let cellBufferSize : ℤ := max 10 (visible.card : ℤ)
  if h : visible.Nonempty then
    let minVisibleIndex := visible.min' h
    let maxVisibleIndex := visible.max' h
    generateRangeInt (max (minVisibleIndex - cellBufferSize) 0)
      (min (maxVisibleIndex + cellBufferSize) (itemCount - 1))
  else
    generateRangeInt 0 cellBufferSize

/-- The `bufferRange` getter: recomputed from the current state on every
access. -/
def bufferRange (s : State) : List ℤ :=
  bufferRangeModel s.visibleCellIndices s.itemCount

/-- One iteration of the `forEach` in `renderCellBuffer`: skip if
already rendered, skip if no container, then either materialize supplied
content or materialize a placeholder (skipping if a placeholder is
already there). -/
def renderCellStep (s : State) (index : ℤ) : State × List ChurnEvent :=
  if index ∈ s.renderedCellIndices then (s, [])
  else if containerExists s index then
    match s.cellProvider index with
    | some c =>
        ({ s with
            containers := Function.update s.containers index (CellContent.content c)
            renderedCellIndices := insert index s.renderedCellIndices
            placeholderCellIndices := s.placeholderCellIndices.erase index },
          [ChurnEvent.renderedContent index])
    | none =>
        if index ∈ s.placeholderCellIndices then (s, [])
        else
          ({ s with
              containers := Function.update s.containers index CellContent.placeholder
              placeholderCellIndices := insert index s.placeholderCellIndices },
            [ChurnEvent.renderedPlaceholder index])
  else (s, [])

/-- Embedding of `renderCellBuffer`: fold `renderCellStep` over the
buffer range, collecting churn events in order. -/
def renderCellBuffer : State → List ℤ → State × List ChurnEvent
  | s, [] => (s, [])
  | s, index :: rest =>
      let p := renderCellStep s index
      let q := renderCellBuffer p.1 rest
      (q.1, p.2 ++ q.2)

/-- Embedding of `removeCell`: if the container exists, pin the height
(not modelled), clear the content and drop the index from
`renderedCellIndices`; otherwise do nothing at all. -/
def removeCell (s : State) (index : ℤ) : State × List ChurnEvent :=
  if containerExists s index then
    ({ s with
        containers := Function.update s.containers index CellContent.empty
        renderedCellIndices := s.renderedCellIndices.erase index },
      [ChurnEvent.evicted index])
  else (s, [])

/-- Fold `removeCell` over a list of indices. -/
def removeCellList : State → List ℤ → State × List ChurnEvent
  | s, [] => (s, [])
  | s, index :: rest =>
      let p := removeCell s index
      let q := removeCellList p.1 rest
      (q.1, p.2 ++ q.2)

/-- Embedding of `removeCellsOutsideBufferRange`: collect the rendered
indices not in the buffer range (the JS `Set` iterates in insertion
order; the order is irrelevant to the resulting state, and we take the
sorted enumeration), then `removeCell` each. -/
def removeCellsOutsideBufferRange (s : State) (range : List ℤ) :
    State × List ChurnEvent :=
  removeCellList s
    (sortedIndices (s.renderedCellIndices.filter (fun i => i ∉ range)))

/-- Embedding of `processVisibleCells` (one reconciliation pass):
snapshot the visible set, compute the buffer range, render the buffer,
evict outside it, then dispatch `visibleCellsChanged` carrying the
snapshot. -/
def processVisibleCells (s : State) : State × List ChurnEvent × List ScrollerEvent :=
  let visibleCellArray := sortedIndices s.visibleCellIndices
  let range := bufferRange s
  let p := renderCellBuffer s range
  let q := removeCellsOutsideBufferRange p.1 range
  (q.1, p.2 ++ q.2, [ScrollerEvent.visibleCellsChanged visibleCellArray])

/-- One entry handed to the IntersectionObserver callback: either the
sentinel element, or a cell container carrying its parsed
`data-cell-index` (`none` when the attribute is missing or empty, in
which case the entry is skipped). -/
inductive ObserverEntry where
  | sentinelEntry : Bool → ObserverEntry
  | cellEntry : Option ℤ → Bool → ObserverEntry
deriving DecidableEq, Repr

/-- Whether an entry is the sentinel reported as intersecting (the
condition under which `scrollThresholdReached` is dispatched). -/
def ObserverEntry.isSentinelIntersecting : ObserverEntry → Bool
  | ObserverEntry.sentinelEntry b => b
  | ObserverEntry.cellEntry _ _ => false

/-- Whether an entry is for the sentinel element. -/
def ObserverEntry.isSentinel : ObserverEntry → Bool
  | ObserverEntry.sentinelEntry _ => true
  | ObserverEntry.cellEntry _ _ => false

/-- Effect of a single observer entry on the visible index set: the
sentinel and unparsable entries leave it unchanged; a cell entry adds
its index when intersecting and deletes it otherwise. -/
def applyEntryVisible (visible : Finset ℤ) : ObserverEntry → Finset ℤ
  | ObserverEntry.sentinelEntry _ => visible
  | ObserverEntry.cellEntry none _ => visible
  | ObserverEntry.cellEntry (some i) true => insert i visible
  | ObserverEntry.cellEntry (some i) false => visible.erase i

/-- Effect of a batch of observer entries on the visible index set, in
batch order. -/
def applyEntriesVisible (visible : Finset ℤ) : List ObserverEntry → Finset ℤ
  | [] => visible
  | e :: rest => applyEntriesVisible (applyEntryVisible visible e) rest

/-- Events dispatched while iterating a batch of entries: one
`scrollThresholdReached` per sentinel entry reported intersecting. -/
def entryEvents : List ObserverEntry → List ScrollerEvent
  | [] => []
  | e :: rest =>
      (if e.isSentinelIntersecting then [ScrollerEvent.scrollThresholdReached] else [])
        ++ entryEvents rest

/-- Embedding of the IntersectionObserver callback: iterate the batch
(dispatching threshold events and updating the visible set), then run
one reconciliation pass unless scroll optimizations are disabled. -/
def intersectionCallback (s : State) (entries : List ObserverEntry) :
    State × List ChurnEvent × List ScrollerEvent :=
  let s1 := { s with
    visibleCellIndices := applyEntriesVisible s.visibleCellIndices entries }
  if s.scrollOptimizationsDisabled then (s1, [], entryEvents entries)
  else
    let p := processVisibleCells s1
    (p.1, p.2.1, entryEvents entries ++ p.2.2)

/-- The state after the entry loop of the observer callback: the batch
applied to the visible index set, everything else untouched. -/
def afterBatch (s : State) (entries : List ObserverEntry) : State :=
  { s with visibleCellIndices := applyEntriesVisible s.visibleCellIndices entries }

/-- Embedding of `setupIntersectionObserver`.  Observer bookkeeping
(`disconnect`, `observe`) has no effect on the modelled state.  When
scroll optimizations are disabled, every index of
`generateRange(0, max(0, itemCount - 1), 1)` is added to the visible set
and one reconciliation pass runs immediately; otherwise nothing happens
until the observer fires. -/
def setupIntersectionObserver (s : State) : State × List ChurnEvent × List ScrollerEvent :=
  if s.scrollOptimizationsDisabled then
    let indexArray := generateRangeInt 0 (max 0 (s.itemCount - 1))
    let s1 := { s with
      visibleCellIndices := s.visibleCellIndices ∪ indexArray.toFinset }
    processVisibleCells s1
  else (s, [], [])

/-- Embedding of `refreshCell`: remove the cell, then re-render it alone
when it lies in the current buffer range. -/
def refreshCell (s : State) (index : ℤ) : State × List ChurnEvent :=
  let p := removeCell s index
  if index ∈ bufferRange p.1 then
    let q := renderCellBuffer p.1 [index]
    (q.1, p.2 ++ q.2)
  else p

/-- Scroll behavior selected by the `animated` flag of `scrollToCell`. -/
inductive ScrollBehavior where
  | smooth : ScrollBehavior
  | auto : ScrollBehavior
deriving DecidableEq, Repr

/-- Embedding of `scrollToCell`: `cellContainers[index]` is defined
exactly for `0 ≤ index < itemCount`; when it is, `scrollIntoView` runs
with the selected behavior and `true` is returned, otherwise `false`
and no scroll.  The windowing state is never touched. -/
def scrollToCell (s : State) (index : ℤ) (animated : Bool) :
    Bool × Option ScrollBehavior :=
  if 0 ≤ index ∧ index < s.itemCount then
    (true, some (if animated then ScrollBehavior.smooth else ScrollBehavior.auto))
  else (false, none)

/-- Whether an event is a `visibleCellsChanged` notification. -/
def isVisibleCellsChanged : ScrollerEvent → Bool
  | ScrollerEvent.visibleCellsChanged _ => true
  | ScrollerEvent.scrollThresholdReached => false

/-- A convenient fresh state: empty tracking sets, empty containers. -/
def freshState (itemCount : ℤ) (disabled : Bool) (provider : ℤ → Option ℕ) : State where
  itemCount := itemCount
  scrollOptimizationsDisabled := disabled
  cellProvider := provider
  renderedCellIndices := ∅
  visibleCellIndices := ∅
  placeholderCellIndices := ∅
  containers := fun _ => CellContent.empty

/-! ## General lemmas about the embedded operations -/

theorem mem_generateRangeInt {a b i : ℤ} :
    i ∈ generateRangeInt a b ↔ a ≤ i ∧ i ≤ b := by
  unfold generateRangeInt
  simp only [List.mem_map, List.mem_range]
  constructor
  · rintro ⟨j, hj, rfl⟩
    omega
  · rintro ⟨h1, h2⟩
    exact ⟨(i - a).toNat, by omega, by omega⟩

theorem generateRange_intCast_one (a b : ℤ) :
    generateRange (a : ℚ) (b : ℚ) 1
      = (generateRangeInt a b).map (fun (i : ℤ) => (i : ℚ)) := by
  unfold generateRange generateRangeInt jsToLength
  rw [List.map_map]
  have hlen : ((b : ℚ) - a) / 1 + 1 = ((b - a + 1 : ℤ) : ℚ) := by
    push_cast; ring
  rw [hlen]
  have h2 : (if ((b - a + 1 : ℤ) : ℚ) ≤ 0 then 0
        else (⌊((b - a + 1 : ℤ) : ℚ)⌋).toNat)
      = (b - a + 1).toNat := by
    rw [Int.floor_intCast]
    split
    · next h =>
        have hb : b - a + 1 ≤ 0 := by exact_mod_cast h
        omega
    · rfl
  rw [h2]
  apply List.map_congr_left
  intro i _
  simp only [Function.comp_apply]
  push_cast
  ring

theorem mem_sortedIndices {t : Finset ℤ} {j : ℤ} :
    j ∈ sortedIndices t ↔ j ∈ t := by
  rcases t with ⟨val, hval⟩
  induction val using Quotient.inductionOn with
  | h l =>
      show j ∈ l.insertionSort (· ≤ ·) ↔ _
      rw [(l.perm_insertionSort (· ≤ ·)).mem_iff]
      rfl

theorem containerExists_congr {s t : State} (h : s.itemCount = t.itemCount)
    (i : ℤ) : containerExists s i ↔ containerExists t i := by
  unfold containerExists
  rw [h]

theorem renderCellStep_preserved (s : State) (i : ℤ) :
    (renderCellStep s i).1.itemCount = s.itemCount
    ∧ (renderCellStep s i).1.scrollOptimizationsDisabled
        = s.scrollOptimizationsDisabled
    ∧ (renderCellStep s i).1.cellProvider = s.cellProvider
    ∧ (renderCellStep s i).1.visibleCellIndices = s.visibleCellIndices := by
  unfold renderCellStep
  repeat' split
  all_goals exact ⟨rfl, rfl, rfl, rfl⟩

theorem renderCellBuffer_preserved (s : State) (l : List ℤ) :
    (renderCellBuffer s l).1.itemCount = s.itemCount
    ∧ (renderCellBuffer s l).1.scrollOptimizationsDisabled
        = s.scrollOptimizationsDisabled
    ∧ (renderCellBuffer s l).1.cellProvider = s.cellProvider
    ∧ (renderCellBuffer s l).1.visibleCellIndices = s.visibleCellIndices := by
  induction l generalizing s with
  | nil => exact ⟨rfl, rfl, rfl, rfl⟩
  | cons i rest ih =>
      obtain ⟨a1, a2, a3, a4⟩ := renderCellStep_preserved s i
      obtain ⟨b1, b2, b3, b4⟩ := ih (renderCellStep s i).1
      exact ⟨b1.trans a1, b2.trans a2, b3.trans a3, b4.trans a4⟩

theorem removeCell_preserved (s : State) (i : ℤ) :
    (removeCell s i).1.itemCount = s.itemCount
    ∧ (removeCell s i).1.scrollOptimizationsDisabled
        = s.scrollOptimizationsDisabled
    ∧ (removeCell s i).1.cellProvider = s.cellProvider
    ∧ (removeCell s i).1.visibleCellIndices = s.visibleCellIndices
    ∧ (removeCell s i).1.placeholderCellIndices = s.placeholderCellIndices := by
  unfold removeCell
  split
  all_goals exact ⟨rfl, rfl, rfl, rfl, rfl⟩

theorem removeCellList_preserved (s : State) (l : List ℤ) :
    (removeCellList s l).1.itemCount = s.itemCount
    ∧ (removeCellList s l).1.scrollOptimizationsDisabled
        = s.scrollOptimizationsDisabled
    ∧ (removeCellList s l).1.cellProvider = s.cellProvider
    ∧ (removeCellList s l).1.visibleCellIndices = s.visibleCellIndices
    ∧ (removeCellList s l).1.placeholderCellIndices
        = s.placeholderCellIndices := by
  induction l generalizing s with
  | nil => exact ⟨rfl, rfl, rfl, rfl, rfl⟩
  | cons i rest ih =>
      obtain ⟨a1, a2, a3, a4, a5⟩ := removeCell_preserved s i
      obtain ⟨b1, b2, b3, b4, b5⟩ := ih (removeCell s i).1
      exact ⟨b1.trans a1, b2.trans a2, b3.trans a3, b4.trans a4, b5.trans a5⟩

theorem processVisibleCells_preserved (s : State) :
    (processVisibleCells s).1.itemCount = s.itemCount
    ∧ (processVisibleCells s).1.scrollOptimizationsDisabled
        = s.scrollOptimizationsDisabled
    ∧ (processVisibleCells s).1.cellProvider = s.cellProvider
    ∧ (processVisibleCells s).1.visibleCellIndices = s.visibleCellIndices := by
  obtain ⟨a1, a2, a3, a4⟩ := renderCellBuffer_preserved s (bufferRange s)
  obtain ⟨b1, b2, b3, b4, _⟩ :=
    removeCellList_preserved (renderCellBuffer s (bufferRange s)).1
      (sortedIndices
        ((renderCellBuffer s (bufferRange s)).1.renderedCellIndices.filter
          (fun i => i ∉ bufferRange s)))
  exact ⟨b1.trans a1, b2.trans a2, b3.trans a3, b4.trans a4⟩

theorem renderCellStep_cases (s : State) (i : ℤ) :
    (i ∈ s.renderedCellIndices ∧ renderCellStep s i = (s, []))
    ∨ (i ∉ s.renderedCellIndices ∧ ¬containerExists s i
        ∧ renderCellStep s i = (s, []))
    ∨ (∃ c, i ∉ s.renderedCellIndices ∧ containerExists s i
        ∧ s.cellProvider i = some c
        ∧ renderCellStep s i = ({ s with
            containers := Function.update s.containers i (CellContent.content c)
            renderedCellIndices := insert i s.renderedCellIndices
            placeholderCellIndices := s.placeholderCellIndices.erase i },
          [ChurnEvent.renderedContent i]))
    ∨ (i ∉ s.renderedCellIndices ∧ containerExists s i
        ∧ s.cellProvider i = none ∧ i ∈ s.placeholderCellIndices
        ∧ renderCellStep s i = (s, []))
    ∨ (i ∉ s.renderedCellIndices ∧ containerExists s i
        ∧ s.cellProvider i = none ∧ i ∉ s.placeholderCellIndices
        ∧ renderCellStep s i = ({ s with
            containers := Function.update s.containers i CellContent.placeholder
            placeholderCellIndices := insert i s.placeholderCellIndices },
          [ChurnEvent.renderedPlaceholder i])) := by
  by_cases hr : i ∈ s.renderedCellIndices
  · exact Or.inl ⟨hr, by simp [renderCellStep, hr]⟩
  by_cases hc : containerExists s i
  · rcases hp : s.cellProvider i with _ | c
    · by_cases hph : i ∈ s.placeholderCellIndices
      · exact Or.inr (Or.inr (Or.inr (Or.inl
          ⟨hr, hc, rfl, hph, by simp [renderCellStep, hr, hc, hp, hph]⟩)))
      · exact Or.inr (Or.inr (Or.inr (Or.inr
          ⟨hr, hc, rfl, hph, by simp [renderCellStep, hr, hc, hp, hph]⟩)))
    · exact Or.inr (Or.inr (Or.inl
        ⟨c, hr, hc, rfl, by simp [renderCellStep, hr, hc, hp]⟩))
  · exact Or.inr (Or.inl ⟨hr, hc, by simp [renderCellStep, hr, hc]⟩)

theorem renderCellStep_mem_rendered (s : State) (i j : ℤ) :
    j ∈ (renderCellStep s i).1.renderedCellIndices ↔
      j ∈ s.renderedCellIndices ∨
        (j = i ∧ containerExists s i ∧ (s.cellProvider i).isSome = true) := by
  rcases renderCellStep_cases s i with ⟨hr, heq⟩ | ⟨hr, hc, heq⟩
    | ⟨c, hr, hc, hp, heq⟩ | ⟨hr, hc, hp, hph, heq⟩ | ⟨hr, hc, hp, hph, heq⟩
  · rw [heq]
    constructor
    · exact Or.inl
    · rintro (hj | ⟨rfl, _, _⟩)
      · exact hj
      · exact hr
  · rw [heq]
    constructor
    · exact Or.inl
    · rintro (hj | ⟨rfl, hc', _⟩)
      · exact hj
      · exact absurd hc' hc
  · rw [heq]
    simp only [Finset.mem_insert, hp, Option.isSome_some]
    constructor
    · rintro (rfl | hj)
      · exact Or.inr ⟨rfl, hc, trivial⟩
      · exact Or.inl hj
    · rintro (hj | ⟨rfl, _, _⟩)
      · exact Or.inr hj
      · exact Or.inl rfl
  · rw [heq]
    simp only [hp, Option.isSome_none]
    constructor
    · exact Or.inl
    · rintro (hj | ⟨_, _, h⟩)
      · exact hj
      · exact Bool.noConfusion h
  · rw [heq]
    simp only [hp, Option.isSome_none]
    constructor
    · exact Or.inl
    · rintro (hj | ⟨_, _, h⟩)
      · exact hj
      · exact Bool.noConfusion h

theorem renderCellBuffer_mem_rendered (s : State) (l : List ℤ) (j : ℤ) :
    j ∈ (renderCellBuffer s l).1.renderedCellIndices ↔
      j ∈ s.renderedCellIndices ∨
        (j ∈ l ∧ containerExists s j ∧ (s.cellProvider j).isSome = true) := by
  induction l generalizing s with
  | nil => simp [renderCellBuffer]
  | cons i rest ih =>
      obtain ⟨a1, _, a3, _⟩ := renderCellStep_preserved s i
      show j ∈ (renderCellBuffer (renderCellStep s i).1 rest).1.renderedCellIndices
        ↔ _
      rw [ih, renderCellStep_mem_rendered]
      rw [containerExists_congr a1 j, a3]
      constructor
      · rintro ((hj | ⟨rfl, hc, hp⟩) | ⟨hm, hc, hp⟩)
        · exact Or.inl hj
        · exact Or.inr ⟨List.mem_cons_self _ _, hc, hp⟩
        · exact Or.inr ⟨List.mem_cons_of_mem _ hm, hc, hp⟩
      · rintro (hj | ⟨hm, hc, hp⟩)
        · exact Or.inl (Or.inl hj)
        · rcases List.mem_cons.mp hm with rfl | hm'
          · exact Or.inl (Or.inr ⟨rfl, hc, hp⟩)
          · exact Or.inr ⟨hm', hc, hp⟩

theorem renderCellBuffer_rendered_mono (s : State) (l : List ℤ) :
    s.renderedCellIndices ⊆ (renderCellBuffer s l).1.renderedCellIndices := by
  intro j hj
  rw [renderCellBuffer_mem_rendered]
  exact Or.inl hj

theorem renderCellStep_placeholder_sub (s : State) (i j : ℤ)
    (hj : j ∈ (renderCellStep s i).1.placeholderCellIndices) :
    j ∈ s.placeholderCellIndices ∨
      (j = i ∧ containerExists s i ∧ s.cellProvider i = none) := by
  rcases renderCellStep_cases s i with ⟨hr, heq⟩ | ⟨hr, hc, heq⟩
    | ⟨c, hr, hc, hp, heq⟩ | ⟨hr, hc, hp, hph, heq⟩ | ⟨hr, hc, hp, hph, heq⟩
  · rw [heq] at hj
    exact Or.inl hj
  · rw [heq] at hj
    exact Or.inl hj
  · rw [heq] at hj
    exact Or.inl (Finset.mem_of_mem_erase hj)
  · rw [heq] at hj
    exact Or.inl hj
  · rw [heq] at hj
    rcases Finset.mem_insert.mp hj with rfl | h'
    · exact Or.inr ⟨rfl, hc, hp⟩
    · exact Or.inl h'

theorem renderCellStep_placeholder_persist (s : State) (i j : ℤ)
    (hj : j ∈ s.placeholderCellIndices) (hnone : s.cellProvider j = none) :
    j ∈ (renderCellStep s i).1.placeholderCellIndices := by
  rcases renderCellStep_cases s i with ⟨hr, heq⟩ | ⟨hr, hc, heq⟩
    | ⟨c, hr, hc, hp, heq⟩ | ⟨hr, hc, hp, hph, heq⟩ | ⟨hr, hc, hp, hph, heq⟩
  · rw [heq]
    exact hj
  · rw [heq]
    exact hj
  · rw [heq]
    refine Finset.mem_erase.mpr ⟨?_, hj⟩
    rintro rfl
    rw [hnone] at hp
    exact Option.noConfusion hp
  · rw [heq]
    exact hj
  · rw [heq]
    exact Finset.mem_insert_of_mem hj

theorem renderCellBuffer_placeholder_sub (s : State) (l : List ℤ) (j : ℤ)
    (hj : j ∈ (renderCellBuffer s l).1.placeholderCellIndices) :
    j ∈ s.placeholderCellIndices ∨
      (j ∈ l ∧ containerExists s j ∧ s.cellProvider j = none) := by
  induction l generalizing s with
  | nil => exact Or.inl hj
  | cons i rest ih =>
      obtain ⟨a1, _, a3, _⟩ := renderCellStep_preserved s i
      have hj' : j ∈ (renderCellBuffer
          (renderCellStep s i).1 rest).1.placeholderCellIndices := hj
      rcases ih (renderCellStep s i).1 hj' with h | ⟨hm, hc, hp⟩
      · rcases renderCellStep_placeholder_sub s i j h with h' | ⟨rfl, hc, hp⟩
        · exact Or.inl h'
        · exact Or.inr ⟨List.mem_cons_self _ _, hc, hp⟩
      · rw [containerExists_congr a1 j] at hc
        rw [a3] at hp
        exact Or.inr ⟨List.mem_cons_of_mem _ hm, hc, hp⟩

theorem renderCellBuffer_placeholder_persist (s : State) (l : List ℤ) (j : ℤ)
    (hj : j ∈ s.placeholderCellIndices) (hnone : s.cellProvider j = none) :
    j ∈ (renderCellBuffer s l).1.placeholderCellIndices := by
  induction l generalizing s with
  | nil => exact hj
  | cons i rest ih =>
      obtain ⟨_, _, a3, _⟩ := renderCellStep_preserved s i
      exact ih (renderCellStep s i).1
        (renderCellStep_placeholder_persist s i j hj hnone)
        (by rw [a3]; exact hnone)

theorem renderCellStep_covers (s : State) (i : ℤ) (hc : containerExists s i) :
    i ∈ (renderCellStep s i).1.renderedCellIndices ∨
      (s.cellProvider i = none ∧
        i ∈ (renderCellStep s i).1.placeholderCellIndices) := by
  rcases renderCellStep_cases s i with ⟨hr, heq⟩ | ⟨hr, hc', heq⟩
    | ⟨c, hr, hc', hp, heq⟩ | ⟨hr, hc', hp, hph, heq⟩ | ⟨hr, hc', hp, hph, heq⟩
  · rw [heq]
    exact Or.inl hr
  · exact absurd hc hc'
  · rw [heq]
    exact Or.inl (Finset.mem_insert_self _ _)
  · rw [heq]
    exact Or.inr ⟨hp, hph⟩
  · rw [heq]
    exact Or.inr ⟨hp, Finset.mem_insert_self _ _⟩

theorem renderCellBuffer_covers (s : State) (l : List ℤ) (j : ℤ)
    (hm : j ∈ l) (hc : containerExists s j) :
    j ∈ (renderCellBuffer s l).1.renderedCellIndices ∨
      (s.cellProvider j = none ∧
        j ∈ (renderCellBuffer s l).1.placeholderCellIndices) := by
  induction l generalizing s with
  | nil => exact absurd hm (List.not_mem_nil j)
  | cons i rest ih =>
      obtain ⟨a1, _, a3, _⟩ := renderCellStep_preserved s i
      rcases List.mem_cons.mp hm with rfl | hm'
      · rcases renderCellStep_covers s j hc with h | ⟨hp, h⟩
        · exact Or.inl (renderCellBuffer_rendered_mono _ rest h)
        · have hnone' : (renderCellStep s j).1.cellProvider j = none := by
            rw [a3]
            exact hp
          exact Or.inr ⟨hp, renderCellBuffer_placeholder_persist
            (renderCellStep s j).1 rest j h hnone'⟩
      · have hc' : containerExists (renderCellStep s i).1 j :=
          (containerExists_congr a1 j).mpr hc
        rcases ih (renderCellStep s i).1 hm' hc' with h | ⟨hp, h⟩
        · exact Or.inl h
        · rw [a3] at hp
          exact Or.inr ⟨hp, h⟩

theorem removeCellList_mem_rendered (s : State) (l : List ℤ) (j : ℤ) :
    j ∈ (removeCellList s l).1.renderedCellIndices ↔
      j ∈ s.renderedCellIndices ∧ ¬(j ∈ l ∧ containerExists s j) := by
  induction l generalizing s with
  | nil => simp [removeCellList]
  | cons i rest ih =>
      obtain ⟨a1, _, _, _, _⟩ := removeCell_preserved s i
      show j ∈ (removeCellList (removeCell s i).1 rest).1.renderedCellIndices ↔ _
      rw [ih, containerExists_congr a1 j]
      unfold removeCell
      split
      · next hc =>
          simp only [Finset.mem_erase, List.mem_cons]
          constructor
          · rintro ⟨⟨hne, hj⟩, hrest⟩
            refine ⟨hj, ?_⟩
            rintro ⟨rfl | hm, hcj⟩
            · exact hne rfl
            · exact hrest ⟨hm, hcj⟩
          · rintro ⟨hj, hno⟩
            have hne : j ≠ i := by
              rintro rfl
              exact hno ⟨Or.inl rfl, hc⟩
            refine ⟨⟨hne, hj⟩, ?_⟩
            rintro ⟨hm, hcj⟩
            exact hno ⟨Or.inr hm, hcj⟩
      · next hc =>
          simp only [List.mem_cons]
          constructor
          · rintro ⟨hj, hno⟩
            refine ⟨hj, ?_⟩
            rintro ⟨rfl | hm, hcj⟩
            · exact hc hcj
            · exact hno ⟨hm, hcj⟩
          · rintro ⟨hj, hno⟩
            refine ⟨hj, ?_⟩
            rintro ⟨hm, hcj⟩
            exact hno ⟨Or.inr hm, hcj⟩

theorem renderCellStep_noop (s : State) (i : ℤ)
    (h : i ∈ s.renderedCellIndices ∨ ¬containerExists s i ∨
      (s.cellProvider i = none ∧ i ∈ s.placeholderCellIndices)) :
    renderCellStep s i = (s, []) := by
  rcases renderCellStep_cases s i with ⟨hr, heq⟩ | ⟨hr, hc, heq⟩
    | ⟨c, hr, hc, hp, heq⟩ | ⟨hr, hc, hp, hph, heq⟩ | ⟨hr, hc, hp, hph, heq⟩
  · exact heq
  · exact heq
  · rcases h with h | h | ⟨hn, _⟩
    · exact absurd h hr
    · exact absurd hc h
    · rw [hn] at hp
      exact Option.noConfusion hp
  · exact heq
  · rcases h with h | h | ⟨_, hp'⟩
    · exact absurd h hr
    · exact absurd hc h
    · exact absurd hp' hph

theorem renderCellBuffer_noop (s : State) (l : List ℤ)
    (h : ∀ i ∈ l, i ∈ s.renderedCellIndices ∨ ¬containerExists s i ∨
      (s.cellProvider i = none ∧ i ∈ s.placeholderCellIndices)) :
    renderCellBuffer s l = (s, []) := by
  induction l generalizing s with
  | nil => rfl
  | cons i rest ih =>
      have hstep : renderCellStep s i = (s, []) :=
        renderCellStep_noop s i (h i (List.mem_cons_self _ _))
      have hrest := ih s (fun j hj => h j (List.mem_cons_of_mem _ hj))
      show (let p := renderCellStep s i
        let q := renderCellBuffer p.1 rest
        ((q.1, p.2 ++ q.2) : State × List ChurnEvent)) = (s, [])
      rw [hstep]
      simp only [hrest]
      rfl

theorem removeCell_noop (s : State) (i : ℤ) (h : ¬containerExists s i) :
    removeCell s i = (s, []) := by
  unfold removeCell
  rw [if_neg h]

theorem removeCellList_noop (s : State) (l : List ℤ)
    (h : ∀ i ∈ l, ¬containerExists s i) :
    removeCellList s l = (s, []) := by
  induction l generalizing s with
  | nil => rfl
  | cons i rest ih =>
      have hstep : removeCell s i = (s, []) :=
        removeCell_noop s i (h i (List.mem_cons_self _ _))
      have hrest := ih s (fun j hj => h j (List.mem_cons_of_mem _ hj))
      show (let p := removeCell s i
        let q := removeCellList p.1 rest
        ((q.1, p.2 ++ q.2) : State × List ChurnEvent)) = (s, [])
      rw [hstep]
      simp only [hrest]
      rfl

theorem renderCellStep_no_evict (s : State) (i j : ℤ) :
    ChurnEvent.evicted j ∉ (renderCellStep s i).2 := by
  rcases renderCellStep_cases s i with ⟨hr, heq⟩ | ⟨hr, hc, heq⟩
    | ⟨c, hr, hc, hp, heq⟩ | ⟨hr, hc, hp, hph, heq⟩ | ⟨hr, hc, hp, hph, heq⟩
  all_goals rw [heq]
  all_goals simp

theorem renderCellBuffer_no_evict (s : State) (l : List ℤ) (j : ℤ) :
    ChurnEvent.evicted j ∉ (renderCellBuffer s l).2 := by
  induction l generalizing s with
  | nil => exact List.not_mem_nil _
  | cons i rest ih =>
      intro hmem
      have hsplit : ChurnEvent.evicted j ∈ (renderCellStep s i).2
          ∨ ChurnEvent.evicted j ∈ (renderCellBuffer (renderCellStep s i).1 rest).2 :=
        List.mem_append.mp hmem
      rcases hsplit with h | h
      · exact renderCellStep_no_evict s i j h
      · exact ih (renderCellStep s i).1 h

/-! ## Claim theorems -/

theorem jsToLength_eq_zero {q : ℚ} (h : q < 1) : jsToLength q = 0 := by
  unfold jsToLength
  split
  · rfl
  · next h2 =>
      rw [Int.floor_eq_zero_iff.mpr ⟨by linarith, h⟩]
      rfl

/-- Claim C1: for every non-empty visible index set `V` and item count
`N ≥ 1`, the computed buffer range is exactly the contiguous integer
range `[max(min V - k, 0), min(max V + k, N - 1)]` with
`k = max(10, |V|)`; and the range is recomputed as a pure function of
the current visible set and item count (any two states agreeing on those
two fields compute equal buffer ranges, with no other cached state
involved). -/
theorem c1_bufferRange_nonempty_window (V : Finset ℤ) (N : ℤ)
    (hV : V.Nonempty) (_hN : 1 ≤ N) :
    (∀ i : ℤ, i ∈ bufferRangeModel V N ↔
      max (V.min' hV - max 10 (V.card : ℤ)) 0 ≤ i
        ∧ i ≤ min (V.max' hV + max 10 (V.card : ℤ)) (N - 1))
    ∧ (∀ s t : State, s.visibleCellIndices = V → t.visibleCellIndices = V
        → s.itemCount = N → t.itemCount = N
        → bufferRange s = bufferRange t) := by
  constructor
  · intro i
    unfold bufferRangeModel
    rw [dif_pos hV]
    exact mem_generateRangeInt
  · intro s t hs ht hsN htN
    unfold bufferRange
    rw [hs, ht, hsN, htN]

/-- Witness for C1 at `V = {3, 7}`, `N = 20`, membership tested at
`i = 0`. -/
theorem c1_witness :
    ({3, 7} : Finset ℤ).Nonempty ∧ (1 : ℤ) ≤ 20 ∧
      ((0 : ℤ) ∈ bufferRangeModel {3, 7} 20 ↔
        max (({3, 7} : Finset ℤ).min' ⟨3, by decide⟩
            - max 10 ((({3, 7} : Finset ℤ).card : ℤ))) 0 ≤ 0
          ∧ (0 : ℤ) ≤ min (({3, 7} : Finset ℤ).max' ⟨3, by decide⟩
            + max 10 ((({3, 7} : Finset ℤ).card : ℤ))) (20 - 1)) :=
  ⟨⟨3, by decide⟩, by norm_num,
    (c1_bufferRange_nonempty_window {3, 7} 20 ⟨3, by decide⟩ (by norm_num)).1 0⟩

/-- Claim C2 is false as stated: with an empty visible set the upper end
of the default window is the buffer size `10` itself, NOT clamped to
`itemCount - 1`.  At `itemCount = 3` (so `0 ≤ N < 11`) the computed
buffer range contains the index `10 ≥ N`. -/
theorem c2_counterexample :
    (10 : ℤ) ∈ bufferRangeModel ∅ 3 ∧ ¬((10 : ℤ) < 3) := by decide

/-- Claim C2 amended: whenever the visible index set is empty the
computed buffer range is exactly `[0, 10]` (`n = max(10, 0) = 10`),
independent of the item count — the empty-visible branch performs no
clamping to the valid index domain (out-of-domain indices in the range
are harmless later only because no cell container exists for them). -/
theorem c2_bufferRange_empty (V : Finset ℤ) (N : ℤ) (hV : V = ∅) :
    bufferRangeModel V N = generateRangeInt 0 10
    ∧ ∀ i : ℤ, i ∈ bufferRangeModel V N ↔ 0 ≤ i ∧ i ≤ 10 := by
  subst hV
  have h1 : bufferRangeModel ∅ N = generateRangeInt 0 10 := by
    unfold bufferRangeModel
    rw [dif_neg Finset.not_nonempty_empty]
    congr 1
  refine ⟨h1, fun i => ?_⟩
  rw [h1]
  exact mem_generateRangeInt

/-- Witness for C2 (amended) at `N = 3`. -/
theorem c2_witness :
    (∅ : Finset ℤ) = ∅ ∧ bufferRangeModel ∅ 3 = generateRangeInt 0 10 :=
  ⟨rfl, (c2_bufferRange_empty ∅ 3 rfl).1⟩

/-- Claim C7 is false as stated: `generateRange` is not inclusive of
`stop` when the step does not divide `stop - start`.
`generateRange 0 5 2 = [0, 2, 4]` has the claimed length
`floor((5-0)/2) + 1 = 3` but does not contain its stop `5`. -/
theorem c7_counterexample :
    generateRange 0 5 2 = [0, 2, 4] ∧ (5 : ℚ) ∉ generateRange 0 5 2 := by
  have harg : ((5 : ℚ) - 0) / 2 + 1 = 7 / 2 := by norm_num
  have hlen : jsToLength (7 / 2) = 3 := by
    unfold jsToLength
    rw [if_neg (by norm_num), show ⌊(7 / 2 : ℚ)⌋ = 3 by norm_num]
    rfl
  have h1 : generateRange 0 5 2 = [0, 2, 4] := by
    unfold generateRange
    rw [harg, hlen]
    norm_num [List.range_succ]
  refine ⟨h1, ?_⟩
  rw [h1]
  norm_num

/-- Claim C7 amended: for `step > 0`, `generateRange start stop step` is
the ordered arithmetic sequence `start + i * step` for
`0 ≤ i ≤ floor((stop - start) / step)` — of length
`floor((stop - start) / step) + 1` when `stop ≥ start` — and is the
empty sequence (not negative-length, with all operations total) when
`stop < start`.  It contains `stop` itself when `step` divides
`stop - start`; for non-aligned steps the last element falls short of
`stop`. -/
theorem c7_generateRange_spec (start stop step : ℚ) (hstep : 0 < step) :
    (stop < start → generateRange start stop step = [])
    ∧ (start ≤ stop →
        ((generateRange start stop step).length : ℤ)
            = ⌊(stop - start) / step⌋ + 1
        ∧ (∀ q : ℚ, q ∈ generateRange start stop step ↔
            ∃ i : ℕ, (i : ℤ) ≤ ⌊(stop - start) / step⌋ ∧ q = start + i * step)
        ∧ ((∃ n : ℤ, stop - start = n * step) →
            stop ∈ generateRange start stop step)) := by
  constructor
  · intro hlt
    have hd : (stop - start) / step < 0 :=
      div_neg_of_neg_of_pos (by linarith) hstep
    have : jsToLength ((stop - start) / step + 1) = 0 :=
      jsToLength_eq_zero (by linarith)
    unfold generateRange
    rw [this]
    rfl
  · intro hle
    have hd0 : 0 ≤ (stop - start) / step := div_nonneg (by linarith) hstep.le
    have hf0 : 0 ≤ ⌊(stop - start) / step⌋ := Int.floor_nonneg.mpr hd0
    have hlen : jsToLength ((stop - start) / step + 1)
        = (⌊(stop - start) / step⌋ + 1).toNat := by
      unfold jsToLength
      rw [if_neg (by linarith), Int.floor_add_one]
    refine ⟨?_, ?_, ?_⟩
    · unfold generateRange
      rw [hlen]
      simp only [List.length_map, List.length_range]
      omega
    · intro q
      unfold generateRange
      rw [hlen]
      simp only [List.mem_map, List.mem_range]
      constructor
      · rintro ⟨i, hi, rfl⟩
        exact ⟨i, by omega, rfl⟩
      · rintro ⟨i, hi, rfl⟩
        exact ⟨i, by omega, rfl⟩
    · rintro ⟨n, hn⟩
      have hdn : (stop - start) / step = (n : ℚ) := by
        rw [hn]
        field_simp
      have hn0 : (0 : ℚ) ≤ (n : ℚ) := by
        rw [← hdn]
        exact hd0
      have hn0' : 0 ≤ n := by exact_mod_cast hn0
      unfold generateRange
      rw [hlen]
      simp only [List.mem_map, List.mem_range]
      refine ⟨n.toNat, by rw [hdn]; rw [Int.floor_intCast]; omega, ?_⟩
      have hcast : ((n.toNat : ℕ) : ℚ) = (n : ℚ) := by
        rw [← Int.cast_natCast]
        congr 1
        omega
      rw [hcast]
      linarith

/-- Witness for C7 (amended) at `start = 0`, `stop = 5`, `step = 2`. -/
theorem c7_witness :
    (0 : ℚ) < 2 ∧
      (((5 : ℚ) < 0 → generateRange 0 5 2 = [])
      ∧ ((0 : ℚ) ≤ 5 →
          ((generateRange 0 5 2).length : ℤ) = ⌊((5 : ℚ) - 0) / 2⌋ + 1
          ∧ (∀ q : ℚ, q ∈ generateRange 0 5 2 ↔
              ∃ i : ℕ, (i : ℤ) ≤ ⌊((5 : ℚ) - 0) / 2⌋ ∧ q = 0 + i * 2)
          ∧ ((∃ n : ℤ, (5 : ℚ) - 0 = n * 2) →
              (5 : ℚ) ∈ generateRange 0 5 2))) :=
  ⟨by norm_num, c7_generateRange_spec 0 5 2 (by norm_num)⟩

/-- Claim C3 is false as stated: placeholder indices are never evicted
by `removeCellsOutsideBufferRange` (it filters `renderedCellIndices`
only).  A first pass (empty visible set, supplier with no content yet)
leaves placeholders on [0, 10]; a second pass, triggered by an observer
batch that makes index 25 visible, computes buffer range [15, 29], yet
index 0 remains in the placeholder set, so
`RenderedIndexSet ∪ PlaceholderIndexSet ⊆ BufferRange` fails. -/
theorem c3_counterexample :
    ((intersectionCallback
        ((processVisibleCells (freshState 30 false (fun _ => none))).1)
        [ObserverEntry.cellEntry (some 25) true]).1.visibleCellIndices = {25})
    ∧ (0 : ℤ) ∈ (intersectionCallback
        ((processVisibleCells (freshState 30 false (fun _ => none))).1)
        [ObserverEntry.cellEntry (some 25) true]).1.placeholderCellIndices
    ∧ (0 : ℤ) ∉ bufferRangeModel {25} 30 := by decide

/-- Claim C3 amended: after every reconciliation pass, every RENDERED
index whose cell container exists (0 ≤ i < itemCount) lies in the buffer
range computed for that pass; placeholder indices (and rendered indices
whose containers have disappeared after an itemCount shrink) are not
subject to this containment. -/
theorem c3_rendered_in_bufferRange (s : State) (i : ℤ)
    (hi : i ∈ (processVisibleCells s).1.renderedCellIndices)
    (h0 : 0 ≤ i) (hN : i < s.itemCount) :
    i ∈ bufferRange s := by
  have hc : containerExists s i := ⟨h0, hN⟩
  obtain ⟨a1, _, _, _⟩ := renderCellBuffer_preserved s (bufferRange s)
  have h2 : i ∈ (removeCellList (renderCellBuffer s (bufferRange s)).1
      (sortedIndices
        ((renderCellBuffer s (bufferRange s)).1.renderedCellIndices.filter
          (fun k => k ∉ bufferRange s)))).1.renderedCellIndices := hi
  rw [removeCellList_mem_rendered] at h2
  obtain ⟨hp1, hno⟩ := h2
  by_contra hnr
  apply hno
  refine ⟨?_, (containerExists_congr a1 i).mpr hc⟩
  rw [mem_sortedIndices, Finset.mem_filter]
  exact ⟨hp1, hnr⟩

/-- Witness for C3 (amended): in a freshly reconciled 3-item scroller
with a total supplier, index 0 is rendered, has a container, and indeed
lies in the buffer range. -/
theorem c3_witness :
    (0 : ℤ) ∈ (processVisibleCells
        (freshState 3 false (fun _ => some 0))).1.renderedCellIndices
    ∧ ((0 : ℤ) ≤ 0 ∧ (0 : ℤ) < (freshState 3 false (fun _ => some 0)).itemCount)
    ∧ (0 : ℤ) ∈ bufferRange (freshState 3 false (fun _ => some 0)) :=
  ⟨by decide, ⟨by decide, by decide⟩,
    c3_rendered_in_bufferRange (freshState 3 false (fun _ => some 0)) 0
      (by decide) (by decide) (by decide)⟩

/-- Claim C4 is false as stated: no code path purges the visible index
set when itemCount shrinks.  Index 5 becomes visible at itemCount = 10;
the item count is then externally set to 3 (the property update re-runs
`setupIntersectionObserver`, which changes none of the tracked sets in
optimized mode); the next observer callback runs a full reconciliation
pass, after which the visible set is still {5}, and 5 is outside the
valid index domain [0, 2]. -/
theorem c4_counterexample :
    ((intersectionCallback
        (setupIntersectionObserver
          { (intersectionCallback (freshState 10 false (fun _ => none))
              [ObserverEntry.cellEntry (some 5) true]).1 with itemCount := 3 }).1
        [ObserverEntry.cellEntry (some 0) false]).1.visibleCellIndices = {5})
    ∧ ¬((5 : ℤ) < 3) := by decide

/-- Claim C4 amended: a reconciliation pass never modifies the visible
index set at all — in particular, entries invalidated by an itemCount
shrink are NOT purged by reconciliation and can remain outside
[0, itemCount - 1]; the set changes only through observer entries (and
wholesale clears). -/
theorem c4_visible_unchanged_by_reconciliation (s : State) :
    (processVisibleCells s).1.visibleCellIndices = s.visibleCellIndices :=
  (processVisibleCells_preserved s).2.2.2

theorem bufferRange_full_domain (N : ℤ) (hN : 1 ≤ N) :
    bufferRangeModel ((generateRangeInt 0 (N - 1)).toFinset) N
      = generateRangeInt 0 (N - 1) := by
  have h0 : (0 : ℤ) ∈ (generateRangeInt 0 (N - 1)).toFinset := by
    rw [List.mem_toFinset, mem_generateRangeInt]
    omega
  have hne : ((generateRangeInt 0 (N - 1)).toFinset).Nonempty := ⟨0, h0⟩
  have hNm : (N - 1 : ℤ) ∈ (generateRangeInt 0 (N - 1)).toFinset := by
    rw [List.mem_toFinset, mem_generateRangeInt]
    omega
  have hmin : ((generateRangeInt 0 (N - 1)).toFinset).min' hne = 0 := by
    apply le_antisymm (Finset.min'_le _ 0 h0)
    apply Finset.le_min'
    intro y hy
    rw [List.mem_toFinset, mem_generateRangeInt] at hy
    omega
  have hmax : ((generateRangeInt 0 (N - 1)).toFinset).max' hne = N - 1 := by
    apply le_antisymm
    · apply Finset.max'_le
      intro y hy
      rw [List.mem_toFinset, mem_generateRangeInt] at hy
      omega
    · exact Finset.le_max' _ _ hNm
  have hA : max (((generateRangeInt 0 (N - 1)).toFinset).min' hne
      - max 10 (((generateRangeInt 0 (N - 1)).toFinset).card : ℤ)) 0 = 0 := by
    rw [hmin]
    omega
  have hB : min (((generateRangeInt 0 (N - 1)).toFinset).max' hne
      + max 10 (((generateRangeInt 0 (N - 1)).toFinset).card : ℤ)) (N - 1)
      = N - 1 := by
    rw [hmax]
    omega
  simp only [bufferRangeModel]
  rw [dif_pos hne, hA, hB]

theorem processVisibleCells_fixed (s : State)
    (hrender : ∀ i ∈ bufferRange s, i ∈ s.renderedCellIndices
      ∨ ¬containerExists s i
      ∨ (s.cellProvider i = none ∧ i ∈ s.placeholderCellIndices))
    (hremove : ∀ i ∈ s.renderedCellIndices, i ∉ bufferRange s
      → ¬containerExists s i) :
    processVisibleCells s = (s, [],
      [ScrollerEvent.visibleCellsChanged (sortedIndices s.visibleCellIndices)]) := by
  have h1 : renderCellBuffer s (bufferRange s) = (s, []) :=
    renderCellBuffer_noop _ _ hrender
  have h2 : removeCellsOutsideBufferRange s (bufferRange s) = (s, []) := by
    unfold removeCellsOutsideBufferRange
    apply removeCellList_noop
    intro i hi
    rw [mem_sortedIndices, Finset.mem_filter] at hi
    exact hremove i hi.1 hi.2
  have h1a : (renderCellBuffer s (bufferRange s)).1 = s := congrArg Prod.fst h1
  have h1b : (renderCellBuffer s (bufferRange s)).2 = ([] : List ChurnEvent) :=
    congrArg Prod.snd h1
  have h2a : (removeCellsOutsideBufferRange s (bufferRange s)).1 = s :=
    congrArg Prod.fst h2
  have h2b : (removeCellsOutsideBufferRange s (bufferRange s)).2
      = ([] : List ChurnEvent) := congrArg Prod.snd h2
  simp only [processVisibleCells]
  rw [h1a, h1b, h2a, h2b]
  rfl

/-- Claim C5 is false as stated: with scroll optimizations disabled the
buffer-calculation step still runs (it simply yields the full domain),
and placeholders ARE rendered for every index whose content the supplier
has not provided.  With `itemCount = 3` and a supplier that has no
content, setting up observations materializes placeholders at 0, 1, 2. -/
theorem c5_counterexample :
    (setupIntersectionObserver
        (freshState 3 true (fun _ => none))).1.placeholderCellIndices = {0, 1, 2}
    ∧ ChurnEvent.renderedPlaceholder 0
        ∈ (setupIntersectionObserver (freshState 3 true (fun _ => none))).2.1 := by
  decide

/-- Claim C5 amended: with scroll optimizations disabled,
`setupIntersectionObserver` marks every index of `[0, itemCount - 1]`
visible and immediately runs one reconciliation pass, with no visibility
event required.  The buffer range it computes covers the full domain, so
every index with supplied content is materialized; indices without
content receive placeholders (they are not left empty), and no cell is
evicted. -/
theorem c5_setup_optimizations_disabled (N : ℤ) (provider : ℤ → Option ℕ)
    (hN : 1 ≤ N) :
    (setupIntersectionObserver
        (freshState N true provider)).1.visibleCellIndices
      = (generateRangeInt 0 (N - 1)).toFinset
    ∧ (∀ j : ℤ, j ∈ (setupIntersectionObserver
          (freshState N true provider)).1.renderedCellIndices
        ↔ 0 ≤ j ∧ j < N ∧ (provider j).isSome = true)
    ∧ (∀ j : ℤ, j ∈ (setupIntersectionObserver
          (freshState N true provider)).1.placeholderCellIndices
        ↔ 0 ≤ j ∧ j < N ∧ provider j = none)
    ∧ (∀ j : ℤ, ChurnEvent.evicted j
        ∉ (setupIntersectionObserver (freshState N true provider)).2.1) := by
  have hmax : max (0 : ℤ) (N - 1) = N - 1 := by omega
  have hsetup : setupIntersectionObserver (freshState N true provider)
      = processVisibleCells { freshState N true provider with
          visibleCellIndices :=
            (∅ : Finset ℤ) ∪ (generateRangeInt 0 (max 0 (N - 1))).toFinset } := rfl
  set s1 : State := { freshState N true provider with
    visibleCellIndices :=
      (∅ : Finset ℤ) ∪ (generateRangeInt 0 (max 0 (N - 1))).toFinset } with hs1
  have hvis : s1.visibleCellIndices = (generateRangeInt 0 (N - 1)).toFinset := by
    rw [hs1]
    show (∅ : Finset ℤ) ∪ (generateRangeInt 0 (max 0 (N - 1))).toFinset = _
    rw [hmax, Finset.empty_union]
  have hbr : bufferRange s1 = generateRangeInt 0 (N - 1) := by
    unfold bufferRange
    rw [hvis]
    exact bufferRange_full_domain N hN
  obtain ⟨hbI, _, hbP, hbV⟩ := renderCellBuffer_preserved s1 (bufferRange s1)
  -- every rendered index after the render phase lies in the range
  have hrsub : ∀ j, j ∈ (renderCellBuffer s1
      (bufferRange s1)).1.renderedCellIndices → j ∈ bufferRange s1 := by
    intro j hj
    rw [renderCellBuffer_mem_rendered] at hj
    rcases hj with h | ⟨hm, _, _⟩
    · exact absurd h (Finset.not_mem_empty j)
    · exact hm
  have hfil : ((renderCellBuffer s1 (bufferRange s1)).1.renderedCellIndices.filter
      (fun k => k ∉ bufferRange s1)) = ∅ := by
    rw [Finset.filter_eq_empty_iff]
    exact fun j hj => not_not_intro (hrsub j hj)
  have hq : removeCellsOutsideBufferRange
      (renderCellBuffer s1 (bufferRange s1)).1 (bufferRange s1)
      = ((renderCellBuffer s1 (bufferRange s1)).1, []) := by
    unfold removeCellsOutsideBufferRange
    rw [hfil]
    rfl
  have hqa : (removeCellsOutsideBufferRange
      (renderCellBuffer s1 (bufferRange s1)).1 (bufferRange s1)).1
      = (renderCellBuffer s1 (bufferRange s1)).1 := by rw [hq]
  have hqb : (removeCellsOutsideBufferRange
      (renderCellBuffer s1 (bufferRange s1)).1 (bufferRange s1)).2
      = ([] : List ChurnEvent) := by rw [hq]
  have hpv : processVisibleCells s1
      = ((renderCellBuffer s1 (bufferRange s1)).1,
          (renderCellBuffer s1 (bufferRange s1)).2 ++ [],
          [ScrollerEvent.visibleCellsChanged
            (sortedIndices s1.visibleCellIndices)]) := by
    simp only [processVisibleCells]
    rw [hqa, hqb]
  have hdom : ∀ j : ℤ, j ∈ bufferRange s1 ↔ 0 ≤ j ∧ j ≤ N - 1 := by
    intro j
    rw [hbr]
    exact mem_generateRangeInt
  refine ⟨?_, ?_, ?_, ?_⟩
  · rw [hsetup, hpv]
    show (renderCellBuffer s1 (bufferRange s1)).1.visibleCellIndices = _
    rw [hbV, hvis]
  · intro j
    rw [hsetup, hpv]
    show j ∈ (renderCellBuffer s1 (bufferRange s1)).1.renderedCellIndices ↔ _
    rw [renderCellBuffer_mem_rendered]
    constructor
    · rintro (h | ⟨hm, hc, hp⟩)
      · exact absurd h (Finset.not_mem_empty j)
      · rcases hc with ⟨hc0, hc1⟩
        exact ⟨hc0, hc1, hp⟩
    · rintro ⟨h0, h1, hp⟩
      exact Or.inr ⟨(hdom j).mpr ⟨h0, by omega⟩, ⟨h0, h1⟩, hp⟩
  · intro j
    rw [hsetup, hpv]
    show j ∈ (renderCellBuffer s1 (bufferRange s1)).1.placeholderCellIndices ↔ _
    constructor
    · intro hj
      rcases renderCellBuffer_placeholder_sub s1 (bufferRange s1) j hj
        with h | ⟨hm, ⟨hc0, hc1⟩, hp⟩
      · exact absurd h (Finset.not_mem_empty j)
      · exact ⟨hc0, hc1, hp⟩
    · rintro ⟨h0, h1, hp⟩
      have hm : j ∈ bufferRange s1 := (hdom j).mpr ⟨h0, by omega⟩
      rcases renderCellBuffer_covers s1 (bufferRange s1) j hm ⟨h0, h1⟩
        with h | ⟨_, h⟩
      · rw [renderCellBuffer_mem_rendered] at h
        rcases h with h | ⟨_, _, hp'⟩
        · exact absurd h (Finset.not_mem_empty j)
        · rw [show s1.cellProvider j = provider j from rfl] at hp'
          rw [hp] at hp'
          exact Bool.noConfusion hp'
      · exact h
  · intro j
    rw [hsetup, hpv]
    show ChurnEvent.evicted j
        ∉ (renderCellBuffer s1 (bufferRange s1)).2 ++ []
    rw [List.append_nil]
    exact renderCellBuffer_no_evict s1 (bufferRange s1) j

/-- Witness for C5 (amended) at `N = 3` with a total supplier. -/
theorem c5_witness :
    (1 : ℤ) ≤ 3 ∧
      ((setupIntersectionObserver
          (freshState 3 true (fun i => some i.toNat))).1.visibleCellIndices
        = (generateRangeInt 0 (3 - 1)).toFinset
      ∧ (∀ j : ℤ, j ∈ (setupIntersectionObserver
            (freshState 3 true (fun i => some i.toNat))).1.renderedCellIndices
          ↔ 0 ≤ j ∧ j < 3 ∧ ((fun (i : ℤ) => some i.toNat) j).isSome = true)
      ∧ (∀ j : ℤ, j ∈ (setupIntersectionObserver
            (freshState 3 true (fun i => some i.toNat))).1.placeholderCellIndices
          ↔ 0 ≤ j ∧ j < 3 ∧ (fun (i : ℤ) => some i.toNat) j = none)
      ∧ (∀ j : ℤ, ChurnEvent.evicted j
          ∉ (setupIntersectionObserver
              (freshState 3 true (fun i => some i.toNat))).2.1)) :=
  ⟨by norm_num,
    c5_setup_optimizations_disabled 3 (fun i => some i.toNat) (by norm_num)⟩

/-- Claim C6: reconciliation is idempotent — repeating a reconciliation
pass immediately (same visible set, item count and supplier, all of
which the pass leaves untouched) changes nothing: the second pass leaves
the state (rendered set, placeholder set, and every container content)
exactly as the first left it, performs no materialization and no
eviction, and emits the same `visibleCellsChanged` snapshot. -/
theorem c6_reconcile_idempotent (s : State) :
    processVisibleCells (processVisibleCells s).1
      = ((processVisibleCells s).1, [], (processVisibleCells s).2.2) := by
  obtain ⟨htI, _, htP, htV⟩ := processVisibleCells_preserved s
  obtain ⟨hbI, _, hbP, hbV⟩ := renderCellBuffer_preserved s (bufferRange s)
  have htPl : (processVisibleCells s).1.placeholderCellIndices
      = (renderCellBuffer s (bufferRange s)).1.placeholderCellIndices :=
    (removeCellList_preserved (renderCellBuffer s (bufferRange s)).1
      (sortedIndices
        ((renderCellBuffer s (bufferRange s)).1.renderedCellIndices.filter
          (fun k => k ∉ bufferRange s)))).2.2.2.2
  have htRen : ∀ i : ℤ, i ∈ (processVisibleCells s).1.renderedCellIndices ↔
      (i ∈ (renderCellBuffer s (bufferRange s)).1.renderedCellIndices
        ∧ ¬(i ∈ sortedIndices
            ((renderCellBuffer s (bufferRange s)).1.renderedCellIndices.filter
              (fun k => k ∉ bufferRange s))
          ∧ containerExists (renderCellBuffer s (bufferRange s)).1 i)) :=
    fun i => removeCellList_mem_rendered _ _ i
  have hbt : bufferRange (processVisibleCells s).1 = bufferRange s := by
    unfold bufferRange
    rw [htI, htV]
  have hrender : ∀ i ∈ bufferRange (processVisibleCells s).1,
      i ∈ (processVisibleCells s).1.renderedCellIndices
      ∨ ¬containerExists (processVisibleCells s).1 i
      ∨ ((processVisibleCells s).1.cellProvider i = none
          ∧ i ∈ (processVisibleCells s).1.placeholderCellIndices) := by
    intro i hi
    rw [hbt] at hi
    by_cases hc : containerExists s i
    · rcases renderCellBuffer_covers s (bufferRange s) i hi hc with hR | ⟨hnone, hPl⟩
      · refine Or.inl ((htRen i).mpr ⟨hR, ?_⟩)
        rintro ⟨hrm, _⟩
        rw [mem_sortedIndices, Finset.mem_filter] at hrm
        exact hrm.2 hi
      · refine Or.inr (Or.inr ⟨?_, ?_⟩)
        · rw [htP]
          exact hnone
        · rw [htPl]
          exact hPl
    · refine Or.inr (Or.inl ?_)
      intro hcc
      exact hc ((containerExists_congr htI i).mp hcc)
  have hremove : ∀ i ∈ (processVisibleCells s).1.renderedCellIndices,
      i ∉ bufferRange (processVisibleCells s).1
      → ¬containerExists (processVisibleCells s).1 i := by
    intro i hiR hiNr hcc
    rw [hbt] at hiNr
    obtain ⟨hP1, hno⟩ := (htRen i).mp hiR
    apply hno
    refine ⟨?_, ?_⟩
    · rw [mem_sortedIndices, Finset.mem_filter]
      exact ⟨hP1, hiNr⟩
    · have hcs : containerExists s i := (containerExists_congr htI i).mp hcc
      exact (containerExists_congr hbI i).mpr hcs
  have hfix := processVisibleCells_fixed (processVisibleCells s).1 hrender hremove
  rw [hfix, htV]
  rfl

theorem entryEvents_count (entries : List ObserverEntry) :
    (entryEvents entries).count ScrollerEvent.scrollThresholdReached
      = (entries.filter ObserverEntry.isSentinelIntersecting).length := by
  induction entries with
  | nil => rfl
  | cons e rest ih =>
      show ((if e.isSentinelIntersecting then
          [ScrollerEvent.scrollThresholdReached] else [])
        ++ entryEvents rest).count ScrollerEvent.scrollThresholdReached = _
      rw [List.count_append, List.filter_cons]
      by_cases hb : e.isSentinelIntersecting = true
      · rw [if_pos hb, if_pos hb]
        have hone : List.count ScrollerEvent.scrollThresholdReached
            [ScrollerEvent.scrollThresholdReached] = 1 := rfl
        rw [hone, ih, List.length_cons]
        omega
      · rw [if_neg hb, if_neg hb]
        simp [ih]

theorem entryEvents_filter_vcc (entries : List ObserverEntry) :
    (entryEvents entries).filter isVisibleCellsChanged = [] := by
  induction entries with
  | nil => rfl
  | cons e rest ih =>
      show ((if e.isSentinelIntersecting then
          [ScrollerEvent.scrollThresholdReached] else [])
        ++ entryEvents rest).filter isVisibleCellsChanged = []
      rw [List.filter_append, ih, List.append_nil]
      split
      · rfl
      · rfl

theorem applyEntriesVisible_filter_sentinel (v : Finset ℤ)
    (entries : List ObserverEntry) :
    applyEntriesVisible v (entries.filter (fun e => ! e.isSentinel))
      = applyEntriesVisible v entries := by
  induction entries generalizing v with
  | nil => rfl
  | cons e rest ih =>
      rcases e with b | ⟨oi, b⟩
      · rw [List.filter_cons, if_neg (by simp [ObserverEntry.isSentinel])]
        exact ih v
      · rw [List.filter_cons, if_pos (by simp [ObserverEntry.isSentinel])]
        exact ih (applyEntryVisible v (ObserverEntry.cellEntry oi b))

theorem processVisibleCells_count_threshold (t : State) :
    ((processVisibleCells t).2.2).count ScrollerEvent.scrollThresholdReached
      = 0 := rfl

/-- Claim C8: per observer-callback batch, one `scrollThresholdReached`
notification is dispatched per sentinel entry that reports intersecting
(so exactly one when the batch contains the sentinel transition once,
and none when the sentinel entry is absent or not intersecting — never
one per cell entry), and sentinel entries never modify the visible
index set (the resulting visible set equals the fold of the batch with
all sentinel entries removed). -/
theorem c8_sentinel_threshold (s : State) (entries : List ObserverEntry) :
    ((intersectionCallback s entries).2.2.count
        ScrollerEvent.scrollThresholdReached
      = (entries.filter ObserverEntry.isSentinelIntersecting).length)
    ∧ (intersectionCallback s entries).1.visibleCellIndices
      = applyEntriesVisible s.visibleCellIndices
          (entries.filter (fun e => ! e.isSentinel)) := by
  constructor
  · simp only [intersectionCallback]
    split
    · exact entryEvents_count entries
    · rw [List.count_append, entryEvents_count,
        processVisibleCells_count_threshold, Nat.add_zero]
  · simp only [intersectionCallback]
    split
    · exact (applyEntriesVisible_filter_sentinel s.visibleCellIndices entries).symm
    · exact ((processVisibleCells_preserved _).2.2.2).trans
        (applyEntriesVisible_filter_sentinel s.visibleCellIndices entries).symm

/-- Claim C9: operations addressing an index with no cell container
(index < 0 or index ≥ itemCount, the DOM holding one container per
valid index) degrade without raising: `scrollToCell` returns false and
performs no scroll, and `refreshCell` leaves the whole state — rendered,
placeholder and visible sets and every container's content — unchanged,
performing no churn.  (All embedded operations are total functions:
nothing throws.) -/
theorem c9_missing_container_noop (s : State) (index : ℤ) (animated : Bool)
    (h : index < 0 ∨ s.itemCount ≤ index) :
    scrollToCell s index animated = (false, none)
    ∧ refreshCell s index = (s, []) := by
  have hnc : ¬(0 ≤ index ∧ index < s.itemCount) := by omega
  constructor
  · unfold scrollToCell
    rw [if_neg hnc]
  · have h1 : removeCell s index = (s, []) := removeCell_noop s index hnc
    have h2 : renderCellBuffer s [index] = (s, []) := by
      apply renderCellBuffer_noop
      intro i hi
      rw [List.mem_singleton] at hi
      subst hi
      exact Or.inr (Or.inl hnc)
    simp only [refreshCell, h1, h2, List.nil_append, List.append_nil, ite_self]

/-- Witness for C9 at a 3-item scroller and the out-of-domain index 5. -/
theorem c9_witness :
    ((5 : ℤ) < 0 ∨ (freshState 3 false (fun _ => none)).itemCount ≤ 5)
    ∧ scrollToCell (freshState 3 false (fun _ => none)) 5 true = (false, none)
    ∧ refreshCell (freshState 3 false (fun _ => none)) 5
        = (freshState 3 false (fun _ => none), []) :=
  ⟨Or.inr (by decide),
    (c9_missing_container_noop (freshState 3 false (fun _ => none)) 5 true
      (Or.inr (by decide))).1,
    (c9_missing_container_noop (freshState 3 false (fun _ => none)) 5 true
      (Or.inr (by decide))).2⟩

/-- Claim C10: with scroll optimizations enabled, each observer callback
first applies the entire batch of visibility additions and removals to
the visible index set, then runs exactly one reconciliation pass on the
resulting post-batch state; the single `visibleCellsChanged`
notification it emits carries the snapshot of the post-batch visible
set, regardless of how many cell entries the batch contains. -/
theorem c10_callback_single_pass (s : State) (entries : List ObserverEntry)
    (h : s.scrollOptimizationsDisabled = false) :
    (intersectionCallback s entries
      = ((processVisibleCells (afterBatch s entries)).1,
         (processVisibleCells (afterBatch s entries)).2.1,
         entryEvents entries
           ++ [ScrollerEvent.visibleCellsChanged (sortedIndices
                (afterBatch s entries).visibleCellIndices)]))
    ∧ ((intersectionCallback s entries).2.2.filter isVisibleCellsChanged)
        = [ScrollerEvent.visibleCellsChanged (sortedIndices
            (afterBatch s entries).visibleCellIndices)] := by
  have h1 : intersectionCallback s entries
      = ((processVisibleCells (afterBatch s entries)).1,
         (processVisibleCells (afterBatch s entries)).2.1,
         entryEvents entries
           ++ [ScrollerEvent.visibleCellsChanged (sortedIndices
                (afterBatch s entries).visibleCellIndices)]) := by
    have hcond : ¬(s.scrollOptimizationsDisabled = true) := by simp [h]
    simp only [intersectionCallback]
    rw [if_neg hcond]
    rfl
  refine ⟨h1, ?_⟩
  rw [h1]
  show (entryEvents entries
      ++ [ScrollerEvent.visibleCellsChanged (sortedIndices
          (afterBatch s entries).visibleCellIndices)]).filter
        isVisibleCellsChanged = _
  rw [List.filter_append, entryEvents_filter_vcc]
  rfl

/-- Witness for C10: a 2-item scroller receiving a one-entry batch. -/
theorem c10_witness :
    (freshState 2 false (fun _ => none)).scrollOptimizationsDisabled = false
    ∧ ((intersectionCallback (freshState 2 false (fun _ => none))
          [ObserverEntry.cellEntry (some 0) true]
        = ((processVisibleCells (afterBatch (freshState 2 false (fun _ => none))
              [ObserverEntry.cellEntry (some 0) true])).1,
           (processVisibleCells (afterBatch (freshState 2 false (fun _ => none))
              [ObserverEntry.cellEntry (some 0) true])).2.1,
           entryEvents [ObserverEntry.cellEntry (some 0) true]
             ++ [ScrollerEvent.visibleCellsChanged (sortedIndices
                  (afterBatch (freshState 2 false (fun _ => none))
                    [ObserverEntry.cellEntry (some 0) true]).visibleCellIndices)]))
      ∧ ((intersectionCallback (freshState 2 false (fun _ => none))
            [ObserverEntry.cellEntry (some 0) true]).2.2.filter
              isVisibleCellsChanged)
          = [ScrollerEvent.visibleCellsChanged (sortedIndices
              (afterBatch (freshState 2 false (fun _ => none))
                [ObserverEntry.cellEntry (some 0) true]).visibleCellIndices)]) :=
  ⟨rfl, c10_callback_single_pass (freshState 2 false (fun _ => none))
    [ObserverEntry.cellEntry (some 0) true] rfl⟩

end InfiniteScroller
